import Mathlib

/-!
Shallow embedding of the MemoryPool library (src/src/MemoryPool.cpp,
src/src/MemoryPool.h) for checking its natural-language specification.

Model summary.
The library keeps, per OS thread, a slot table indexed by pool id; each
slot holds a pair of arena handles (`pointers[0]` = "front" generation,
`pointers[1]` = "back" generation).  A process-global registry
(`ResourceIdCollection`) maps each live pool id to the pool's
`ResourceMap`, which holds two sets (`resourceMaps[0]`, `resourceMaps[1]`)
of pointers to the arena-handle cells threads have bound for that pool.

We model a handle cell by the triple (thread id, pool id, front flag),
an arena by the list of (size, align) allocations it has served, and a
quiescent interleaving of the library's operations as a step relation on
the whole-system state.  Concurrency is not modelled: every claim here is
about quiescent points, and the locks only serialize the operations we
model as atomic.
-/

namespace MemPool

/-- Thread identifier (identifies one thread-local `TLSResourceArray`).
A torn-down table is never revived: exited thread ids do not act again. -/
abbrev Tid := Nat

/-- Pool id, the index into every thread's slot table. -/
abbrev Pid := Nat

/-- Identity of one arena-handle cell `&resourceArray[pid].pointers[g].resource`
inside thread `tid`'s slot table: (tid, pid, front?), `front = true` standing
for index 0 of the pair. -/
abbrev CellId := Tid × Pid × Bool

/-- An arena (`std::pmr::monotonic_buffer_resource`), abstracted as the
record of the (size, align) allocations it has served since creation.
A fresh arena is `[]`; `allocate` appends; destroying the owning
`unique_ptr` drops the whole record. -/
abbrev Arena := List (Nat × Nat)

/-- The per-pool state: the pool object's fields (`useFront`, whether a GC
callback is registered) together with its `ResourceMap`'s two handle sets
(`resourceMaps[0].resourceMap` and `resourceMaps[1].resourceMap`).  In the
C++ the `ResourceMap` is owned by the pool (`pImpl`) and registered in the
global id map, so merging them is faithful at quiescent points. -/
structure PoolSt where
  useFront : Bool
  hasGC : Bool
  setF : List CellId
  setB : List CellId
deriving DecidableEq, Repr

/-- Select one of the two handle sets by the front flag (`resourceMaps[0]`
for `true`, `resourceMaps[1]` for `false`). -/
def PoolSt.set (ps : PoolSt) (g : Bool) : List CellId :=
  if g then ps.setF else ps.setB

/-- Whole-system state at a quiescent point. -/
@[ext]
structure SysState where
  /-- sorted key list of the global `std::map<unsigned int, ResourceMap *>`:
  the live pool ids. -/
  poolIds : List Pid
  /-- live pool id ↦ pool object fields and registry sets. -/
  pools : Pid → Option PoolSt
  /-- arena-handle cells across all thread slot tables; `none` is a null
  `ControlledResource` (also used for cells of tables not yet created). -/
  cells : CellId → Option Arena
  /-- threads whose `TLSResourceArray` destructor has run. -/
  deadThreads : List Tid

/-- Insertion of an element into an `std::unordered_set` modelled as a
list: a no-op when already present. -/
def insertCell (c : CellId) (l : List CellId) : List CellId :=
  if c ∈ l then l else c :: l

/-- Ordered insertion into the sorted key list of the global `std::map`. -/
def insertSorted (x : Nat) : List Nat → List Nat
  | [] => [x]
  | y :: ys => if x ≤ y then x :: y :: ys else y :: insertSorted x ys

/-- The gap scan inside `QueryFreeMemoryPoolId` (MemoryPool.cpp:194-205):
walk the remaining keys and return `lastKnown + 1` at the first pair of
consecutive keys differing by more than one. -/
def findGap : Nat → List Nat → Option Nat
  | _, [] => none
  | lastKnown, k :: rest =>
    if k - lastKnown > 1 then some (lastKnown + 1) else findGap k rest

/-- QueryFreeMemoryPoolId (MemoryPool.cpp:173-212) on the sorted key list
of the global collection; `N` is the compile-time `MAX_MEMORYPOOL_COUNT`
(the spec's MAX_POOLS), `none` is the `Too many memory pools created`
throw. -/
def QueryFreeMemoryPoolId (N : Nat) : List Nat → Option Nat
  | [] => some 0
  | [k] => some (if k = 0 then 1 else 0)
  | k0 :: k1 :: rest =>
    if (k0 :: k1 :: rest).length = N then none
    else
      let result := (k0 :: k1 :: rest).getLastD 0 + 1
      if result = N then findGap k0 (k1 :: rest)
      else some result

/-- Smallest id in [0, N) absent from `keys` (what the spec calls the
smallest free id; used to compare against the implementation). -/
def smallestFreeId (N : Nat) (keys : List Nat) : Option Nat :=
  (List.range N).find? (fun i => decide (i ∉ keys))

/-- MemoryPool::MemoryPool (MemoryPool.cpp:258-261): build a fresh
`ResourceMap`, ask the registry for an id, insert it.  `useFront` starts
`true` (MemoryPool.h:133), no GC callback, both handle sets empty.
Returns the new state and the assigned id (`none` on the throw, which
leaves the collection untouched). -/
def createPoolOp (N : Nat) (s : SysState) : SysState × Option Pid :=
  match QueryFreeMemoryPoolId N s.poolIds with
  | none => (s, none)
  | some r =>
    ({ s with
        poolIds := insertSorted r s.poolIds,
        pools := fun q => if q = r then some ⟨true, false, [], []⟩ else s.pools q },
      some r)

/-- Reset every `ControlledResource` cell listed in `l`
(`resource->reset()` on each member of a handle set: the arena object is
destroyed and the cell becomes null).  Set membership is untouched. -/
def resetCells (s : SysState) (l : List CellId) : SysState :=
  { s with cells := fun c => if c ∈ l then none else s.cells c }

/-- ResourceMap::CleanAll (MemoryPool.cpp:130-136), reached from
MemoryPool::Clean, ~MemoryPool and callback-less GC: reset every cell in
both handle sets of pool `p`.  No-op if `p` is not a live pool. -/
def CleanAllOp (s : SysState) (p : Pid) : SysState :=
  match s.pools p with
  | none => s
  | some ps => resetCells s (ps.setF ++ ps.setB)

/-- MemoryPool::CleanTemp → ResourceMap::CleanTemp(useFront)
(MemoryPool.cpp:138-143, 294-296): reset every cell in the handle set of
the non-active generation (`resourceMaps[1]` when `useFront`, else
`resourceMaps[0]`). -/
def CleanTempOp (s : SysState) (p : Pid) : SysState :=
  match s.pools p with
  | none => s
  | some ps => resetCells s (ps.set (!ps.useFront))

/-- FreeMemoryPoolId after CleanAll: MemoryPool::~MemoryPool
(MemoryPool.cpp:263-266) cleans every bound cell, then erases the id from
the global collection (the pool's `ResourceMap` dies with the pool). -/
def destroyPoolOp (s : SysState) (p : Pid) : SysState :=
  let s1 := CleanAllOp s p
  { s1 with
      poolIds := s1.poolIds.erase p,
      pools := fun q => if q = p then none else s1.pools q }

/-- MemoryPool::RegisterGC (MemoryPool.cpp:276-278) with a non-empty
callable: the pool's `gc` becomes truthy. -/
def registerGCOp (s : SysState) (p : Pid) : SysState :=
  { s with
      pools := fun q =>
        if q = p then (s.pools q).map (fun ps => { ps with hasGC := true })
        else s.pools q }

/-- Insertion of cell `c` into the handle set of generation `g` of one
pool record. -/
def bindPool (ps : PoolSt) (c : CellId) (g : Bool) : PoolSt :=
  if g then { ps with setF := insertCell c ps.setF }
  else { ps with setB := insertCell c ps.setB }

/-- ResourceMap::BindResource (MemoryPool.cpp:116-121): insert cell `c`
into pool `p`'s handle set for generation `g`. -/
def bindCell (s : SysState) (p : Pid) (c : CellId) (g : Bool) : SysState :=
  { s with
      pools := fun q =>
        if q = p then (s.pools q).map (fun ps => bindPool ps c g)
        else s.pools q }

/-- Generation index a policy selects on a pool: `useFront` itself for the
Default policy, negated for the Temporary policy (the `if constexpr`
negation in details::GetResourcePointer, MemoryPool.cpp:230-232). -/
def genOf (temp : Bool) (ps : PoolSt) : Bool :=
  if temp then !ps.useFront else ps.useFront

/-- details::GetResourcePointer (MemoryPool.cpp:226-245) run by thread `t`
on pool `p`: pick the front cell iff `useFront`, negated for the
Temporary policy; on first touch (null cell) construct a fresh arena in
the cell and bind the cell into the registry set of that generation.
Returns the resulting state and the chosen cell. -/
def GetResourcePointerOp (s : SysState) (t : Tid) (p : Pid) (temp : Bool) :
    SysState × CellId :=
  match s.pools p with
  | none => (s, (t, p, true))
  | some ps =>
    match s.cells (t, p, genOf temp ps) with
    | some _ => (s, (t, p, genOf temp ps))
    | none =>
      (bindCell
        { s with
            cells := fun x =>
              if x = (t, p, genOf temp ps) then some [] else s.cells x }
        p (t, p, genOf temp ps) (genOf temp ps),
        (t, p, genOf temp ps))

/-- MemoryPool::Malloc / MallocTemp (MemoryPool.cpp:268-274):
`GetResourcePointer(...)->allocate(size, align)`.  `ok` says whether the
upstream chunk allocator grants memory; on failure the allocate throw
propagates and the arena keeps its previous contents, but whatever
`GetResourcePointer` did (first-touch creation and bind) stays. -/
def MallocOp (s : SysState) (t : Tid) (p : Pid) (temp : Bool)
    (size align : Nat) (ok : Bool) : SysState :=
  if ok then
    { (GetResourcePointerOp s t p temp).1 with
        cells := fun x =>
          if x = (GetResourcePointerOp s t p temp).2 then
            ((GetResourcePointerOp s t p temp).1.cells x).map
              (fun a => a ++ [(size, align)])
          else (GetResourcePointerOp s t p temp).1.cells x }
  else (GetResourcePointerOp s t p temp).1

/-- One allocation a GC callback performs (pool, Temporary?, size, align,
upstream grant). -/
abbrev CbAction := Pid × Bool × Nat × Nat × Bool

/-- Run the user GC callback of thread `t`: a sequence of allocations
through the library (spec §4.4 step 4: the callback re-allocates with the
pool's allocators; `Delete`/`Free` are no-ops on memory). -/
def runCallback (s : SysState) (t : Tid) : List CbAction → SysState
  | [] => s
  | a :: rest => runCallback (MallocOp s t a.1 a.2.1 a.2.2.1 a.2.2.2.1 a.2.2.2.2) t rest

/-- Flip of the pool's `useFront` bit (MemoryPool.cpp:288). -/
def flipPool (s : SysState) (p : Pid) : SysState :=
  { s with
      pools := fun q =>
        if q = p then (s.pools q).map (fun ps => { ps with useFront := !ps.useFront })
        else s.pools q }

/-- MemoryPool::GC (MemoryPool.cpp:281-291) run by thread `t`: with no
registered callback, exactly `CleanAll`; otherwise `CleanTemp`, flip
`useFront`, run the callback, `CleanTemp` again (the second one now
targeting the pre-call active generation). -/
def GCOp (s : SysState) (t : Tid) (p : Pid) (acts : List CbAction) : SysState :=
  match s.pools p with
  | none => s
  | some ps =>
    if ps.hasGC then
      CleanTempOp (runCallback (flipPool (CleanTempOp s p) p) t acts) p
    else
      CleanAllOp s p

/-- TLSResourceArray::~TLSResourceArray (MemoryPool.cpp:90-96) for thread
`t`: for every pool index, `removeRefFromPool` unbinds both cells from the
registry (a no-op for ids not in the collection), and only after all
unbinds do the member `ControlledResource`s destroy their arenas. -/
def threadExitOp (s : SysState) (t : Tid) : SysState :=
  { poolIds := s.poolIds,
    pools := fun q =>
      (s.pools q).map (fun ps =>
        { ps with
            setF := ps.setF.erase (t, q, true),
            setB := ps.setB.erase (t, q, false) }),
    cells := fun c => if c.1 = t then none else s.cells c,
    deadThreads := t :: s.deadThreads }

/-- Empty process state: no pools, no slot tables. -/
def initState : SysState :=
  { poolIds := [], pools := fun _ => none, cells := fun _ => none, deadThreads := [] }

/-- One quiescent library operation.  Threads act only while alive;
`destroy` consumes an existing pool object. -/
inductive Step (N : Nat) : SysState → SysState → Prop
  | create (s : SysState) : Step N s (createPoolOp N s).1
  | destroy (s : SysState) (p : Pid) (hp : p ∈ s.poolIds) : Step N s (destroyPoolOp s p)
  | registerGC (s : SysState) (p : Pid) : Step N s (registerGCOp s p)
  | malloc (s : SysState) (t : Tid) (p : Pid) (temp : Bool) (size align : Nat)
      (ok : Bool) (ht : t ∉ s.deadThreads) :
      Step N s (MallocOp s t p temp size align ok)
  | cleanTemp (s : SysState) (p : Pid) : Step N s (CleanTempOp s p)
  | clean (s : SysState) (p : Pid) : Step N s (CleanAllOp s p)
  | gc (s : SysState) (t : Tid) (p : Pid) (acts : List CbAction)
      (ht : t ∉ s.deadThreads) : Step N s (GCOp s t p acts)
  | threadExit (s : SysState) (t : Tid) (ht : t ∉ s.deadThreads) :
      Step N s (threadExitOp s t)

/-- States reachable from process start by quiescent operations. -/
def Reachable (N : Nat) (s : SysState) : Prop :=
  Relation.ReflTransGen (Step N) initState s

/-! Concrete example traces (with `MAX_MEMORYPOOL_COUNT = 4`) used to
evaluate the claims on explicit inputs. -/

/-- One pool constructed: id 0 live, no arenas yet. -/
def exPool : SysState := (createPoolOp 4 initState).1

/-- Thread 0 then allocates 8 bytes on pool 0 (Default policy, succeeds):
first touch creates the front arena and binds its cell. -/
def exAlloc : SysState := MallocOp exPool 0 0 false 8 8 true

/-- Thread 0 additionally allocates 16 bytes with the Temporary policy:
the back arena of pool 0 is created and bound as well. -/
def exTempAlloc : SysState := MallocOp exAlloc 0 0 true 16 8 true

/-- Same first-touch allocation as `exAlloc` but the chunk allocator
refuses growth: `allocate` throws after `GetResourcePointer` ran. -/
def exFail : SysState := MallocOp exPool 0 0 false 8 8 false

/-- MemoryPool::Clean on pool 0 after `exAlloc`. -/
def exClean : SysState := CleanAllOp exAlloc 0

/-- A GC callback registered on pool 0 after `exAlloc`. -/
def exGCReg : SysState := registerGCOp exAlloc 0

/-- Thread 0 exits after `exAlloc` while pool 0 is still live. -/
def exExit : SysState := threadExitOp exAlloc 0

/-- Two pools live: ids [0, 1]. -/
def exTwoPools : SysState := (createPoolOp 4 exPool).1

/-- Three pools created (ids 0,1,2), then pool 1 destroyed: live ids [0, 2],
so the smallest free id is 1. -/
def c1State : SysState := destroyPoolOp (createPoolOp 4 exTwoPools).1 1

/-- All four ids live: [0, 1, 2, 3]. -/
def c3Full : SysState := (createPoolOp 4 (createPoolOp 4 exTwoPools).1).1

/-- Pool 0 destroyed out of the full set: live ids [1, 2, 3], id 0 free. -/
def c3Gap : SysState := destroyPoolOp c3Full 0

/-- Structural invariant of reachable quiescent states:
the collection's key list is sorted, bounded by `MAX_MEMORYPOOL_COUNT`
and matched by the pool table; every registered handle cell carries the
pool id and generation of the set holding it and belongs to a live
thread; sets are duplicate-free; every non-null arena's cell is
registered in its pool's set (the race-free-bind direction that the code
maintains). -/
structure Inv (N : Nat) (s : SysState) : Prop where
  sorted : List.Pairwise (· < ·) s.poolIds
  bounded : ∀ k ∈ s.poolIds, k < N
  link : ∀ p : Pid, (s.pools p).isSome = true ↔ p ∈ s.poolIds
  wf : ∀ p ps, s.pools p = some ps → ∀ g : Bool, ∀ c ∈ ps.set g,
    c.2.1 = p ∧ c.2.2 = g ∧ c.1 ∉ s.deadThreads
  nd : ∀ p ps, s.pools p = some ps → ∀ g : Bool, (ps.set g).Nodup
  bound : ∀ c : CellId, s.cells c ≠ none →
    ∃ ps, s.pools c.2.1 = some ps ∧ c ∈ ps.set c.2.2

/-! Lemmas about the registry's id allocator. -/

theorem mem_insertCell {x c : CellId} {l : List CellId} :
    x ∈ insertCell c l ↔ x = c ∨ x ∈ l := by
  unfold insertCell
  split
  · rename_i h
    constructor
    · exact fun hx => Or.inr hx
    · rintro (rfl | hx)
      · exact h
      · exact hx
  · exact List.mem_cons

theorem nodup_insertCell {c : CellId} {l : List CellId} (h : l.Nodup) :
    (insertCell c l).Nodup := by
  unfold insertCell
  split
  · exact h
  · exact List.nodup_cons.mpr ⟨by assumption, h⟩

theorem mem_insertSorted {y x : Nat} {l : List Nat} :
    y ∈ insertSorted x l ↔ y = x ∨ y ∈ l := by
  induction l with
  | nil => simp [insertSorted]
  | cons a t ih =>
    unfold insertSorted
    split
    · simp [List.mem_cons]
    · simp only [List.mem_cons, ih]
      tauto

theorem pairwise_insertSorted {x : Nat} {l : List Nat}
    (hs : List.Pairwise (· < ·) l) (hx : x ∉ l) :
    List.Pairwise (· < ·) (insertSorted x l) := by
  induction l with
  | nil => simp [insertSorted]
  | cons a t ih =>
    rw [List.pairwise_cons] at hs
    unfold insertSorted
    split
    · rename_i hle
      have hxa : x < a := by
        rcases Nat.lt_or_ge x a with h | h
        · exact h
        · exact absurd (Nat.le_antisymm hle h) (by intro hh; exact hx (hh ▸ List.mem_cons_self a t))
      refine List.pairwise_cons.mpr ⟨?_, List.pairwise_cons.mpr hs⟩
      intro y hy
      rcases List.mem_cons.mp hy with rfl | hyt
      · exact hxa
      · exact Nat.lt_trans hxa (hs.1 y hyt)
    · rename_i hnle
      have hax : a < x := Nat.lt_of_not_le hnle
      refine List.pairwise_cons.mpr ⟨?_, ih hs.2 (fun h => hx (List.mem_cons_of_mem a h))⟩
      intro y hy
      rcases mem_insertSorted.mp hy with rfl | hyt
      · exact hax
      · exact hs.1 y hyt

theorem findGap_spec :
    ∀ (lastKnown : Nat) (ks : List Nat),
      List.Pairwise (· < ·) (lastKnown :: ks) →
      ∀ r, findGap lastKnown ks = some r →
        lastKnown < r ∧ r ∉ ks ∧ ∃ c ∈ ks, r < c := by
  intro lastKnown ks
  induction ks generalizing lastKnown with
  | nil => intro _ r h; simp [findGap] at h
  | cons k rest ih =>
    intro hp r h
    have hlk : lastKnown < k := (List.pairwise_cons.mp hp).1 k (List.mem_cons_self _ _)
    have htail : List.Pairwise (· < ·) (k :: rest) := (List.pairwise_cons.mp hp).2
    unfold findGap at h
    split at h
    · rename_i hgap
      injection h with h
      subst h
      have hrk : lastKnown + 1 < k := by omega
      refine ⟨Nat.lt_succ_self _, ?_, ⟨k, List.mem_cons_self _ _, hrk⟩⟩
      intro hmem
      rcases List.mem_cons.mp hmem with rfl | hrest
      · omega
      · exact absurd ((List.pairwise_cons.mp htail).1 _ hrest) (by omega)
    · obtain ⟨h1, h2, c, hc, h3⟩ := ih k htail r h
      refine ⟨Nat.lt_trans hlk h1, ?_, ⟨c, List.mem_cons_of_mem _ hc, h3⟩⟩
      intro hmem
      rcases List.mem_cons.mp hmem with rfl | hrest
      · omega
      · exact h2 hrest

theorem getLastD_mem : ∀ (a : Nat) (l : List Nat), (a :: l).getLastD 0 ∈ a :: l := by
  intro a l
  induction l generalizing a with
  | nil => simp [List.getLastD]
  | cons b t ih =>
    rw [List.getLastD_cons, List.getLastD_cons]
    have := ih b
    rw [List.getLastD_cons] at this
    exact List.mem_cons_of_mem a this

theorem le_getLastD_of_mem :
    ∀ (a : Nat) (l : List Nat), List.Pairwise (· < ·) (a :: l) →
      ∀ k ∈ a :: l, k ≤ (a :: l).getLastD 0 := by
  intro a l
  induction l generalizing a with
  | nil =>
    intro _ k hk
    simp only [List.mem_singleton] at hk
    simp [hk, List.getLastD]
  | cons b t ih =>
    intro hp k hk
    have hab : a < b := (List.pairwise_cons.mp hp).1 b (List.mem_cons_self _ _)
    have htail := (List.pairwise_cons.mp hp).2
    have hcast : (a :: b :: t).getLastD 0 = (b :: t).getLastD 0 := by
      simp [List.getLastD_cons]
    rw [hcast]
    rcases List.mem_cons.mp hk with rfl | hk2
    · exact Nat.le_trans (Nat.le_of_lt hab) (ih b htail b (List.mem_cons_self _ _))
    · exact ih b htail k hk2

theorem add_length_le_getLastD :
    ∀ (t : List Nat) (x : Nat), List.Pairwise (· < ·) (x :: t) →
      x + t.length ≤ (x :: t).getLastD 0 := by
  intro t
  induction t with
  | nil => intro x _; simp [List.getLastD]
  | cons y t' ih =>
    intro x hp
    have hxy : x < y := (List.pairwise_cons.mp hp).1 y (List.mem_cons_self _ _)
    have htail := (List.pairwise_cons.mp hp).2
    have hcast : (x :: y :: t').getLastD 0 = (y :: t').getLastD 0 := by
      simp [List.getLastD_cons]
    rw [hcast]
    have := ih y htail
    simp only [List.length_cons]
    omega

theorem QueryFreeMemoryPoolId_fresh_lt (N : Nat) (keys : List Nat)
    (hs : List.Pairwise (· < ·) keys) (hb : ∀ k ∈ keys, k < N) (h2 : 2 ≤ N) :
    ∀ r, QueryFreeMemoryPoolId N keys = some r → r ∉ keys ∧ r < N := by
  intro r hq
  rcases keys with _ | ⟨k, _ | ⟨k1, rest⟩⟩
  · simp only [QueryFreeMemoryPoolId] at hq
    injection hq with hq
    subst hq
    exact ⟨by simp, by omega⟩
  · simp only [QueryFreeMemoryPoolId] at hq
    injection hq with hq
    subst hq
    by_cases hk : k = 0
    · subst hk
      refine ⟨by simp, ?_⟩
      simp only [eq_self_iff_true, if_true]
      omega
    · simp only [if_neg hk]
      refine ⟨by simp [Ne.symm hk], ?_⟩
      omega
  · simp only [QueryFreeMemoryPoolId] at hq
    split at hq
    · exact absurd hq (by simp)
    · split at hq
      · rename_i hlen hres
        obtain ⟨h1, h2x, c, hc, h3⟩ := findGap_spec k (k1 :: rest) hs r hq
        constructor
        · intro hmem
          rcases List.mem_cons.mp hmem with rfl | hmem2
          · omega
          · exact h2x hmem2
        · exact Nat.lt_trans h3 (hb c (List.mem_cons_of_mem _ hc))
      · rename_i hlen hres
        injection hq with hq
        subst hq
        have hlast := le_getLastD_of_mem k (k1 :: rest) hs
        have hmemlast := getLastD_mem k (k1 :: rest)
        constructor
        · intro hmem
          have := hlast _ hmem
          omega
        · have := hb _ hmemlast
          omega

/-! Small structural lemmas about pool records and operations. -/

theorem set_useFront_update (ps : PoolSt) (x g : Bool) :
    PoolSt.set { ps with useFront := x } g = ps.set g := by
  cases g <;> rfl

theorem set_hasGC_update (ps : PoolSt) (x : Bool) (g : Bool) :
    PoolSt.set { ps with hasGC := x } g = ps.set g := by
  cases g <;> rfl

theorem set_setF_update (ps : PoolSt) (X : List CellId) (g : Bool) :
    PoolSt.set { ps with setF := X } g = if g then X else ps.setB := by
  cases g <;> rfl

theorem set_setB_update (ps : PoolSt) (X : List CellId) (g : Bool) :
    PoolSt.set { ps with setB := X } g = if g then ps.setF else X := by
  cases g <;> rfl

theorem set_empty (uf hg : Bool) (g : Bool) :
    PoolSt.set ⟨uf, hg, [], []⟩ g = [] := by
  cases g <;> rfl

theorem mem_set_append (ps : PoolSt) (g : Bool) (c : CellId) (hc : c ∈ ps.set g) :
    c ∈ ps.setF ++ ps.setB := by
  cases g
  · exact List.mem_append_right _ hc
  · exact List.mem_append_left _ hc

theorem optionMap_isSome {α β : Type} (f : α → β) (o : Option α) :
    (o.map f).isSome = o.isSome := by
  cases o <;> rfl

theorem resetCells_pools (s : SysState) (l : List CellId) :
    (resetCells s l).pools = s.pools := rfl

theorem resetCells_poolIds (s : SysState) (l : List CellId) :
    (resetCells s l).poolIds = s.poolIds := rfl

theorem resetCells_deadThreads (s : SysState) (l : List CellId) :
    (resetCells s l).deadThreads = s.deadThreads := rfl

theorem CleanAllOp_pools (s : SysState) (p : Pid) :
    (CleanAllOp s p).pools = s.pools := by
  unfold CleanAllOp
  split <;> rfl

theorem CleanAllOp_poolIds (s : SysState) (p : Pid) :
    (CleanAllOp s p).poolIds = s.poolIds := by
  unfold CleanAllOp
  split <;> rfl

theorem CleanAllOp_deadThreads (s : SysState) (p : Pid) :
    (CleanAllOp s p).deadThreads = s.deadThreads := by
  unfold CleanAllOp
  split <;> rfl

theorem CleanAllOp_cells (s : SysState) (p : Pid) (ps : PoolSt)
    (hp : s.pools p = some ps) :
    (CleanAllOp s p).cells =
      fun c => if c ∈ ps.setF ++ ps.setB then none else s.cells c := by
  unfold CleanAllOp
  rw [hp]
  rfl

theorem CleanTempOp_pools (s : SysState) (p : Pid) :
    (CleanTempOp s p).pools = s.pools := by
  unfold CleanTempOp
  split <;> rfl

theorem CleanTempOp_poolIds (s : SysState) (p : Pid) :
    (CleanTempOp s p).poolIds = s.poolIds := by
  unfold CleanTempOp
  split <;> rfl

theorem CleanTempOp_deadThreads (s : SysState) (p : Pid) :
    (CleanTempOp s p).deadThreads = s.deadThreads := by
  unfold CleanTempOp
  split <;> rfl

theorem CleanTempOp_cells (s : SysState) (p : Pid) (ps : PoolSt)
    (hp : s.pools p = some ps) :
    (CleanTempOp s p).cells =
      fun c => if c ∈ ps.set (!ps.useFront) then none else s.cells c := by
  unfold CleanTempOp
  rw [hp]
  rfl

theorem bindCell_poolIds (s : SysState) (p : Pid) (c : CellId) (g : Bool) :
    (bindCell s p c g).poolIds = s.poolIds := rfl

theorem bindCell_deadThreads (s : SysState) (p : Pid) (c : CellId) (g : Bool) :
    (bindCell s p c g).deadThreads = s.deadThreads := rfl

theorem bindCell_cells (s : SysState) (p : Pid) (c : CellId) (g : Bool) :
    (bindCell s p c g).cells = s.cells := rfl

theorem GetResourcePointerOp_poolIds (s : SysState) (t : Tid) (p : Pid) (temp : Bool) :
    (GetResourcePointerOp s t p temp).1.poolIds = s.poolIds := by
  unfold GetResourcePointerOp
  split
  · rfl
  · split <;> rfl

theorem GetResourcePointerOp_deadThreads (s : SysState) (t : Tid) (p : Pid) (temp : Bool) :
    (GetResourcePointerOp s t p temp).1.deadThreads = s.deadThreads := by
  unfold GetResourcePointerOp
  split
  · rfl
  · split <;> rfl

theorem MallocOp_poolIds (s : SysState) (t : Tid) (p : Pid) (temp : Bool)
    (size align : Nat) (ok : Bool) :
    (MallocOp s t p temp size align ok).poolIds = s.poolIds := by
  unfold MallocOp
  split
  · exact GetResourcePointerOp_poolIds s t p temp
  · exact GetResourcePointerOp_poolIds s t p temp

theorem MallocOp_deadThreads (s : SysState) (t : Tid) (p : Pid) (temp : Bool)
    (size align : Nat) (ok : Bool) :
    (MallocOp s t p temp size align ok).deadThreads = s.deadThreads := by
  unfold MallocOp
  split
  · exact GetResourcePointerOp_deadThreads s t p temp
  · exact GetResourcePointerOp_deadThreads s t p temp

theorem flipPool_frame (s : SysState) (p : Pid) :
    (flipPool s p).poolIds = s.poolIds ∧ (flipPool s p).cells = s.cells ∧
      (flipPool s p).deadThreads = s.deadThreads :=
  ⟨rfl, rfl, rfl⟩

theorem runCallback_deadThreads (t : Tid) :
    ∀ (acts : List CbAction) (s : SysState),
      (runCallback s t acts).deadThreads = s.deadThreads := by
  intro acts
  induction acts with
  | nil => intro s; rfl
  | cons a rest ih =>
    intro s
    unfold runCallback
    rw [ih, MallocOp_deadThreads]

theorem set_bindPool (ps : PoolSt) (c : CellId) (g g' : Bool) :
    (bindPool ps c g).set g' =
      if g = g' then insertCell c (ps.set g') else ps.set g' := by
  cases g <;> cases g' <;> rfl

theorem set_eraseThread (ps : PoolSt) (t : Tid) (q : Pid) (g : Bool) :
    PoolSt.set
        { ps with
            setF := ps.setF.erase (t, q, true),
            setB := ps.setB.erase (t, q, false) } g =
      (ps.set g).erase (t, q, g) := by
  cases g <;> rfl

/-! Preservation of the structural invariant by every operation. -/

theorem inv_resetCells (N : Nat) (s : SysState) (l : List CellId) (h : Inv N s) :
    Inv N (resetCells s l) := by
  refine ⟨h.sorted, h.bounded, h.link, h.wf, h.nd, ?_⟩
  intro c hc
  by_cases hm : c ∈ l
  · exact absurd (if_pos hm) hc
  · exact h.bound c (fun h0 => hc ((if_neg hm).trans h0))

theorem inv_CleanAllOp (N : Nat) (s : SysState) (p : Pid) (h : Inv N s) :
    Inv N (CleanAllOp s p) := by
  unfold CleanAllOp
  split
  · exact h
  · exact inv_resetCells N s _ h

theorem inv_CleanTempOp (N : Nat) (s : SysState) (p : Pid) (h : Inv N s) :
    Inv N (CleanTempOp s p) := by
  unfold CleanTempOp
  split
  · exact h
  · exact inv_resetCells N s _ h

theorem inv_mapPoolFields (N : Nat) (s : SysState) (p : Pid) (f : PoolSt → PoolSt)
    (hf : ∀ ps g, (f ps).set g = ps.set g) (h : Inv N s) :
    Inv N { s with pools := fun q => if q = p then (s.pools q).map f else s.pools q } := by
  refine ⟨h.sorted, h.bounded, ?_, ?_, ?_, ?_⟩
  · intro q
    dsimp only
    by_cases hq : q = p
    · rw [if_pos hq, optionMap_isSome]
      exact h.link q
    · rw [if_neg hq]
      exact h.link q
  · intro q ps' hps' g c hc
    dsimp only at hps'
    by_cases hq : q = p
    · rw [if_pos hq] at hps'
      obtain ⟨ps, hps, hf'⟩ := Option.map_eq_some'.mp hps'
      subst hf'
      rw [hf] at hc
      exact h.wf q ps hps g c hc
    · rw [if_neg hq] at hps'
      exact h.wf q ps' hps' g c hc
  · intro q ps' hps' g
    dsimp only at hps'
    by_cases hq : q = p
    · rw [if_pos hq] at hps'
      obtain ⟨ps, hps, hf'⟩ := Option.map_eq_some'.mp hps'
      subst hf'
      rw [hf]
      exact h.nd q ps hps g
    · rw [if_neg hq] at hps'
      exact h.nd q ps' hps' g
  · intro c hc
    obtain ⟨ps, hps, hmem⟩ := h.bound c hc
    by_cases hq : c.2.1 = p
    · refine ⟨f ps, ?_, ?_⟩
      · dsimp only
        rw [if_pos hq, hps]
        rfl
      · rw [hf]
        exact hmem
    · refine ⟨ps, ?_, hmem⟩
      dsimp only
      rw [if_neg hq]
      exact hps

theorem inv_flipPool (N : Nat) (s : SysState) (p : Pid) (h : Inv N s) :
    Inv N (flipPool s p) := by
  unfold flipPool
  exact inv_mapPoolFields N s p _ (fun ps g => set_useFront_update ps _ g) h

theorem inv_registerGCOp (N : Nat) (s : SysState) (p : Pid) (h : Inv N s) :
    Inv N (registerGCOp s p) := by
  unfold registerGCOp
  exact inv_mapPoolFields N s p _ (fun ps g => set_hasGC_update ps _ g) h

theorem inv_appendCell (N : Nat) (s : SysState) (c0 : CellId) (d : Nat × Nat) (h : Inv N s) :
    Inv N { s with
        cells := fun x =>
          if x = c0 then (s.cells x).map (fun a => a ++ [d]) else s.cells x } := by
  refine ⟨h.sorted, h.bounded, h.link, h.wf, h.nd, ?_⟩
  intro c hc
  by_cases hx : c = c0
  · refine h.bound c ?_
    intro h0
    apply hc
    show (if c = c0 then (s.cells c).map (fun a => a ++ [d]) else s.cells c) = none
    rw [if_pos hx, h0]
    rfl
  · exact h.bound c (fun h0 => hc ((if_neg hx).trans h0))

theorem inv_GetResourcePointerOp (N : Nat) (s : SysState) (t : Tid) (p : Pid)
    (temp : Bool) (ht : t ∉ s.deadThreads) (h : Inv N s) :
    Inv N (GetResourcePointerOp s t p temp).1 := by
  unfold GetResourcePointerOp
  split
  · exact h
  · rename_i ps hps
    split
    · exact h
    · rename_i harena
      dsimp only
      refine ⟨h.sorted, h.bounded, ?_, ?_, ?_, ?_⟩
      · intro q
        dsimp only [bindCell]
        by_cases hq : q = p
        · rw [if_pos hq, optionMap_isSome]
          exact h.link q
        · rw [if_neg hq]
          exact h.link q
      · intro q ps' hps' g c hc
        dsimp only [bindCell] at hps'
        by_cases hq : q = p
        · rw [if_pos hq] at hps'
          subst hq
          rw [hps] at hps'
          injection hps' with hps'
          subst hps'
          rw [set_bindPool] at hc
          by_cases hg : genOf temp ps = g
          · rw [if_pos hg] at hc
            rcases mem_insertCell.mp hc with rfl | hold
            · exact ⟨rfl, hg, ht⟩
            · exact h.wf q ps hps g c hold
          · rw [if_neg hg] at hc
            exact h.wf q ps hps g c hc
        · rw [if_neg hq] at hps'
          exact h.wf q ps' hps' g c hc
      · intro q ps' hps' g
        dsimp only [bindCell] at hps'
        by_cases hq : q = p
        · rw [if_pos hq] at hps'
          subst hq
          rw [hps] at hps'
          injection hps' with hps'
          subst hps'
          rw [set_bindPool]
          by_cases hg : genOf temp ps = g
          · rw [if_pos hg]
            exact nodup_insertCell (h.nd q ps hps g)
          · rw [if_neg hg]
            exact h.nd q ps hps g
        · rw [if_neg hq] at hps'
          exact h.nd q ps' hps' g
      · intro c hc
        dsimp only [bindCell] at hc ⊢
        by_cases hx : c = (t, p, genOf temp ps)
        · subst hx
          refine ⟨bindPool ps (t, p, genOf temp ps) (genOf temp ps), ?_, ?_⟩
          · rw [if_pos rfl, hps]
            rfl
          · rw [set_bindPool, if_pos rfl]
            exact mem_insertCell.mpr (Or.inl rfl)
        · have hsc : s.cells c ≠ none := fun h0 => hc ((if_neg hx).trans h0)
          obtain ⟨ps0, hps0, hmem⟩ := h.bound c hsc
          by_cases hq : c.2.1 = p
          · refine ⟨bindPool ps0 (t, p, genOf temp ps) (genOf temp ps), ?_, ?_⟩
            · rw [if_pos hq, hps0]
              rfl
            · rw [set_bindPool]
              by_cases hg : genOf temp ps = c.2.2
              · rw [if_pos hg]
                exact mem_insertCell.mpr (Or.inr hmem)
              · rw [if_neg hg]
                exact hmem
          · refine ⟨ps0, ?_, hmem⟩
            rw [if_neg hq]
            exact hps0

theorem inv_MallocOp (N : Nat) (s : SysState) (t : Tid) (p : Pid) (temp : Bool)
    (size align : Nat) (ok : Bool) (ht : t ∉ s.deadThreads) (h : Inv N s) :
    Inv N (MallocOp s t p temp size align ok) := by
  unfold MallocOp
  split
  · exact inv_appendCell N _ _ _ (inv_GetResourcePointerOp N s t p temp ht h)
  · exact inv_GetResourcePointerOp N s t p temp ht h

theorem inv_runCallback (N : Nat) (t : Tid) (acts : List CbAction) :
    ∀ s : SysState, t ∉ s.deadThreads → Inv N s → Inv N (runCallback s t acts) := by
  induction acts with
  | nil => intro s _ h; exact h
  | cons a rest ih =>
    intro s ht h
    unfold runCallback
    refine ih _ ?_ (inv_MallocOp N s t a.1 a.2.1 a.2.2.1 a.2.2.2.1 a.2.2.2.2 ht h)
    rw [MallocOp_deadThreads]
    exact ht

theorem inv_GCOp (N : Nat) (s : SysState) (t : Tid) (p : Pid) (acts : List CbAction)
    (ht : t ∉ s.deadThreads) (h : Inv N s) : Inv N (GCOp s t p acts) := by
  unfold GCOp
  split
  · exact h
  · split
    · apply inv_CleanTempOp
      apply inv_runCallback
      · show t ∉ (CleanTempOp s p).deadThreads
        rw [CleanTempOp_deadThreads]
        exact ht
      · exact inv_flipPool N _ p (inv_CleanTempOp N s p h)
    · exact inv_CleanAllOp N s p h

theorem inv_createPoolOp (N : Nat) (s : SysState) (h2 : 2 ≤ N) (h : Inv N s) :
    Inv N (createPoolOp N s).1 := by
  unfold createPoolOp
  cases hq : QueryFreeMemoryPoolId N s.poolIds with
  | none => exact h
  | some r =>
    obtain ⟨hfresh, hlt⟩ :=
      QueryFreeMemoryPoolId_fresh_lt N s.poolIds h.sorted h.bounded h2 r hq
    dsimp only
    refine ⟨pairwise_insertSorted h.sorted hfresh, ?_, ?_, ?_, ?_, ?_⟩
    · intro k hk
      rcases mem_insertSorted.mp hk with rfl | hk2
      · exact hlt
      · exact h.bounded k hk2
    · intro q
      dsimp only
      by_cases hqr : q = r
      · rw [if_pos hqr]
        subst hqr
        simp only [Option.isSome_some, true_iff]
        exact mem_insertSorted.mpr (Or.inl rfl)
      · rw [if_neg hqr]
        rw [h.link q]
        constructor
        · exact fun hm => mem_insertSorted.mpr (Or.inr hm)
        · intro hm
          rcases mem_insertSorted.mp hm with rfl | hm2
          · exact absurd rfl hqr
          · exact hm2
    · intro q ps hps g c hc
      dsimp only at hps
      by_cases hqr : q = r
      · rw [if_pos hqr] at hps
        injection hps with hps
        subst hps
        rw [set_empty] at hc
        exact absurd hc (List.not_mem_nil c)
      · rw [if_neg hqr] at hps
        exact h.wf q ps hps g c hc
    · intro q ps hps g
      dsimp only at hps
      by_cases hqr : q = r
      · rw [if_pos hqr] at hps
        injection hps with hps
        subst hps
        rw [set_empty]
        exact List.nodup_nil
      · rw [if_neg hqr] at hps
        exact h.nd q ps hps g
    · intro c hc
      obtain ⟨ps, hps, hmem⟩ := h.bound c hc
      by_cases hqr : c.2.1 = r
      · exfalso
        have hsome : (s.pools c.2.1).isSome = true := by rw [hps]; rfl
        rw [h.link] at hsome
        rw [hqr] at hsome
        exact hfresh hsome
      · refine ⟨ps, ?_, hmem⟩
        dsimp only
        rw [if_neg hqr]
        exact hps

theorem inv_destroyPoolOp (N : Nat) (s : SysState) (p : Pid) (h : Inv N s) :
    Inv N (destroyPoolOp s p) := by
  have h1 : Inv N (CleanAllOp s p) := inv_CleanAllOp N s p h
  have hnd : s.poolIds.Nodup := h.sorted.imp (fun hlt => Nat.ne_of_lt hlt)
  unfold destroyPoolOp
  refine ⟨?_, ?_, ?_, ?_, ?_, ?_⟩
  · exact List.Pairwise.sublist (List.erase_sublist p _) h1.sorted
  · intro k hk
    exact h1.bounded k (List.mem_of_mem_erase hk)
  · intro q
    dsimp only
    rw [CleanAllOp_pools, CleanAllOp_poolIds]
    by_cases hq : q = p
    · rw [if_pos hq]
      subst hq
      constructor
      · intro hfalse
        exact absurd hfalse (by simp)
      · intro hmem
        exact absurd (hnd.mem_erase_iff.mp hmem).1 (by simp)
    · rw [if_neg hq]
      rw [h.link q, hnd.mem_erase_iff]
      constructor
      · exact fun hm => ⟨hq, hm⟩
      · exact fun hm => hm.2
  · intro q ps hps g c hc
    dsimp only at hps
    rw [CleanAllOp_pools] at hps
    by_cases hq : q = p
    · rw [if_pos hq] at hps
      exact absurd hps (by simp)
    · rw [if_neg hq] at hps
      have := h.wf q ps hps g c hc
      rw [CleanAllOp_deadThreads]
      exact this
  · intro q ps hps g
    dsimp only at hps
    rw [CleanAllOp_pools] at hps
    by_cases hq : q = p
    · rw [if_pos hq] at hps
      exact absurd hps (by simp)
    · rw [if_neg hq] at hps
      exact h.nd q ps hps g
  · intro c hc
    dsimp only at hc ⊢
    obtain ⟨ps1, hps1, hmem1⟩ := h1.bound c hc
    rw [CleanAllOp_pools] at hps1
    by_cases hq : c.2.1 = p
    · exfalso
      rw [CleanAllOp_cells s p ps1 (hq ▸ hps1)] at hc
      apply hc
      exact if_pos (mem_set_append ps1 c.2.2 c hmem1)
    · refine ⟨ps1, ?_, hmem1⟩
      rw [CleanAllOp_pools]
      rw [if_neg hq]
      exact hps1

theorem inv_threadExitOp (N : Nat) (s : SysState) (t : Tid)
    (ht : t ∉ s.deadThreads) (h : Inv N s) : Inv N (threadExitOp s t) := by
  refine ⟨h.sorted, h.bounded, ?_, ?_, ?_, ?_⟩
  · intro q
    dsimp only [threadExitOp]
    rw [optionMap_isSome]
    exact h.link q
  · intro q ps' hps' g c hc
    dsimp only [threadExitOp] at hps' ⊢
    obtain ⟨ps, hps, hf'⟩ := Option.map_eq_some'.mp hps'
    subst hf'
    rw [set_eraseThread] at hc
    have hmem := List.mem_of_mem_erase hc
    obtain ⟨h1, h2x, h3⟩ := h.wf q ps hps g c hmem
    refine ⟨h1, h2x, ?_⟩
    intro hdead
    rcases List.mem_cons.mp hdead with hct | hct
    · apply absurd hc
      have hceq : c = (t, q, g) := by
        obtain ⟨c1, c2, c3⟩ := c
        simp only at h1 h2x hct
        rw [hct, h1, h2x]
      rw [((h.nd q ps hps g).mem_erase_iff)]
      intro hcontra
      exact hcontra.1 hceq
    · exact h3 hct
  · intro q ps' hps' g
    dsimp only [threadExitOp] at hps'
    obtain ⟨ps, hps, hf'⟩ := Option.map_eq_some'.mp hps'
    subst hf'
    rw [set_eraseThread]
    exact List.Nodup.erase _ (h.nd q ps hps g)
  · intro c hc
    dsimp only [threadExitOp] at hc ⊢
    by_cases hct : c.1 = t
    · exact absurd (if_pos hct) hc
    · have hsc : s.cells c ≠ none := fun h0 => hc ((if_neg hct).trans h0)
      obtain ⟨ps, hps, hmem⟩ := h.bound c hsc
      refine ⟨_, by rw [hps]; rfl, ?_⟩
      rw [set_eraseThread]
      refine (List.mem_erase_of_ne ?_).mpr hmem
      intro heq
      exact hct (congrArg Prod.fst heq)

theorem inv_init (N : Nat) : Inv N initState := by
  refine ⟨List.Pairwise.nil, ?_, ?_, ?_, ?_, ?_⟩
  · intro k hk
    exact absurd hk (List.not_mem_nil k)
  · intro p
    simp [initState]
  · intro p ps hps
    exact absurd hps (by simp [initState])
  · intro p ps hps
    exact absurd hps (by simp [initState])
  · intro c hc
    exact absurd rfl hc

theorem inv_step (N : Nat) (h2 : 2 ≤ N) {s s' : SysState}
    (hstep : Step N s s') (h : Inv N s) : Inv N s' := by
  cases hstep with
  | create => exact inv_createPoolOp N s h2 h
  | destroy p hp => exact inv_destroyPoolOp N s p h
  | registerGC p => exact inv_registerGCOp N s p h
  | malloc t p temp size align ok ht => exact inv_MallocOp N s t p temp size align ok ht h
  | cleanTemp p => exact inv_CleanTempOp N s p h
  | clean p => exact inv_CleanAllOp N s p h
  | gc t p acts ht => exact inv_GCOp N s t p acts ht h
  | threadExit t ht => exact inv_threadExitOp N s t ht h

theorem reachable_inv (N : Nat) (h2 : 2 ≤ N) {s : SysState}
    (hr : Reachable N s) : Inv N s := by
  induction hr with
  | refl => exact inv_init N
  | tail hsteps hstep ih => exact inv_step N h2 hstep ih

/-! Monotonicity of pool fields and registry sets under allocations. -/

theorem bindPool_useFront (ps : PoolSt) (c : CellId) (g : Bool) :
    (bindPool ps c g).useFront = ps.useFront := by
  cases g <;> rfl

theorem bindPool_hasGC (ps : PoolSt) (c : CellId) (g : Bool) :
    (bindPool ps c g).hasGC = ps.hasGC := by
  cases g <;> rfl

theorem mem_set_bindPool_of_mem (ps : PoolSt) (c : CellId) (g g' : Bool)
    (x : CellId) (hx : x ∈ ps.set g') : x ∈ (bindPool ps c g).set g' := by
  rw [set_bindPool]
  by_cases hgg : g = g'
  · rw [if_pos hgg]
    exact mem_insertCell.mpr (Or.inr hx)
  · rw [if_neg hgg]
    exact hx

theorem MallocOp_pools (s : SysState) (t : Tid) (p : Pid) (temp : Bool)
    (size align : Nat) (ok : Bool) :
    (MallocOp s t p temp size align ok).pools = (GetResourcePointerOp s t p temp).1.pools := by
  unfold MallocOp
  split <;> rfl

theorem GetResourcePointerOp_pools_mono (s : SysState) (t : Tid) (p : Pid)
    (temp : Bool) (q : Pid) (ps : PoolSt) (h : s.pools q = some ps) :
    ∃ ps', (GetResourcePointerOp s t p temp).1.pools q = some ps' ∧
      ps'.useFront = ps.useFront ∧ ps'.hasGC = ps.hasGC ∧
      ∀ g : Bool, ∀ c ∈ ps.set g, c ∈ ps'.set g := by
  unfold GetResourcePointerOp
  split
  · exact ⟨ps, h, rfl, rfl, fun g c hc => hc⟩
  · rename_i ps0 hps0
    split
    · exact ⟨ps, h, rfl, rfl, fun g c hc => hc⟩
    · dsimp only [bindCell]
      by_cases hq : q = p
      · subst hq
        rw [hps0] at h
        injection h with h
        subst h
        refine ⟨bindPool ps0 (t, q, genOf temp ps0) (genOf temp ps0), ?_, ?_, ?_, ?_⟩
        · rw [if_pos rfl, hps0]
          rfl
        · exact bindPool_useFront ps0 _ _
        · exact bindPool_hasGC ps0 _ _
        · exact fun g c hc => mem_set_bindPool_of_mem ps0 _ _ g c hc
      · rw [if_neg hq]
        exact ⟨ps, h, rfl, rfl, fun g c hc => hc⟩

theorem MallocOp_pools_mono (s : SysState) (t : Tid) (p : Pid) (temp : Bool)
    (size align : Nat) (ok : Bool) (q : Pid) (ps : PoolSt) (h : s.pools q = some ps) :
    ∃ ps', (MallocOp s t p temp size align ok).pools q = some ps' ∧
      ps'.useFront = ps.useFront ∧ ps'.hasGC = ps.hasGC ∧
      ∀ g : Bool, ∀ c ∈ ps.set g, c ∈ ps'.set g := by
  rw [MallocOp_pools]
  exact GetResourcePointerOp_pools_mono s t p temp q ps h

theorem runCallback_pools_mono (t : Tid) (acts : List CbAction) :
    ∀ (s : SysState) (q : Pid) (ps : PoolSt), s.pools q = some ps →
      ∃ ps', (runCallback s t acts).pools q = some ps' ∧
        ps'.useFront = ps.useFront ∧ ps'.hasGC = ps.hasGC ∧
        ∀ g : Bool, ∀ c ∈ ps.set g, c ∈ ps'.set g := by
  induction acts with
  | nil => intro s q ps h; exact ⟨ps, h, rfl, rfl, fun g c hc => hc⟩
  | cons a rest ih =>
    intro s q ps h
    unfold runCallback
    obtain ⟨ps1, h1, hu1, hg1, hm1⟩ :=
      MallocOp_pools_mono s t a.1 a.2.1 a.2.2.1 a.2.2.2.1 a.2.2.2.2 q ps h
    obtain ⟨ps2, h2, hu2, hg2, hm2⟩ := ih _ q ps1 h1
    exact ⟨ps2, h2, hu2.trans hu1, hg2.trans hg1,
      fun g c hc => hm2 g c (hm1 g c hc)⟩

theorem flipPool_pools_self (s : SysState) (p : Pid) (ps : PoolSt)
    (h : s.pools p = some ps) :
    (flipPool s p).pools p = some { ps with useFront := !ps.useFront } := by
  dsimp only [flipPool]
  rw [if_pos rfl, h]
  rfl

/-! Reachability of the concrete example states. -/

theorem reachable_exPool : Reachable 4 exPool :=
  Relation.ReflTransGen.tail Relation.ReflTransGen.refl (Step.create initState)

theorem reachable_exAlloc : Reachable 4 exAlloc :=
  Relation.ReflTransGen.tail reachable_exPool
    (Step.malloc exPool 0 0 false 8 8 true (by decide))

theorem reachable_exTempAlloc : Reachable 4 exTempAlloc :=
  Relation.ReflTransGen.tail reachable_exAlloc
    (Step.malloc exAlloc 0 0 true 16 8 true (by decide))

theorem reachable_exClean : Reachable 4 exClean :=
  Relation.ReflTransGen.tail reachable_exAlloc (Step.clean exAlloc 0)

theorem reachable_exGCReg : Reachable 4 exGCReg :=
  Relation.ReflTransGen.tail reachable_exAlloc (Step.registerGC exAlloc 0)

theorem reachable_exExit : Reachable 4 exExit :=
  Relation.ReflTransGen.tail reachable_exAlloc
    (Step.threadExit exAlloc 0 (by decide))

theorem reachable_exTwoPools : Reachable 4 exTwoPools :=
  Relation.ReflTransGen.tail reachable_exPool (Step.create exPool)

/-! Frame lemmas on cells of threads other than the allocating one, and
idempotence of resets. -/

theorem GetResourcePointerOp_snd_fst (s : SysState) (t : Tid) (p : Pid) (temp : Bool) :
    (GetResourcePointerOp s t p temp).2.1 = t := by
  unfold GetResourcePointerOp
  split
  · rfl
  · split <;> rfl

theorem GetResourcePointerOp_cells_other (s : SysState) (t : Tid) (p : Pid)
    (temp : Bool) (c : CellId) (hc : c.1 ≠ t) :
    (GetResourcePointerOp s t p temp).1.cells c = s.cells c := by
  unfold GetResourcePointerOp
  split
  · rfl
  · rename_i ps hps
    split
    · rfl
    · show (if c = (t, p, genOf temp ps) then some [] else s.cells c) = s.cells c
      rw [if_neg]
      intro heq
      exact hc (congrArg Prod.fst heq)

theorem MallocOp_cells_other (s : SysState) (t : Tid) (p : Pid) (temp : Bool)
    (size align : Nat) (ok : Bool) (c : CellId) (hc : c.1 ≠ t) :
    (MallocOp s t p temp size align ok).cells c = s.cells c := by
  have hne : c ≠ (GetResourcePointerOp s t p temp).2 := by
    intro heq
    apply hc
    rw [heq, GetResourcePointerOp_snd_fst]
  unfold MallocOp
  split
  · show (if c = (GetResourcePointerOp s t p temp).2 then _ else _) = s.cells c
    rw [if_neg hne]
    exact GetResourcePointerOp_cells_other s t p temp c hc
  · exact GetResourcePointerOp_cells_other s t p temp c hc

theorem runCallback_cells_other (t2 : Tid) (acts : List CbAction) :
    ∀ (s : SysState) (c : CellId), c.1 ≠ t2 →
      (runCallback s t2 acts).cells c = s.cells c := by
  induction acts with
  | nil => intro s c _; rfl
  | cons a rest ih =>
    intro s c hc
    unfold runCallback
    rw [ih _ c hc, MallocOp_cells_other _ _ _ _ _ _ _ c hc]

theorem resetCells_idem (s : SysState) (l : List CellId) :
    resetCells (resetCells s l) l = resetCells s l := by
  refine SysState.ext rfl rfl ?_ rfl
  funext c
  show (if c ∈ l then none else (resetCells s l).cells c) = (resetCells s l).cells c
  by_cases hm : c ∈ l
  · rw [if_pos hm]
    exact (if_pos hm).symm
  · rw [if_neg hm]

theorem MallocOp_true (s : SysState) (t : Tid) (p : Pid) (temp : Bool)
    (size align : Nat) :
    MallocOp s t p temp size align true =
      { (GetResourcePointerOp s t p temp).1 with
          cells := fun x =>
            if x = (GetResourcePointerOp s t p temp).2 then
              ((GetResourcePointerOp s t p temp).1.cells x).map
                (fun a => a ++ [(size, align)])
            else (GetResourcePointerOp s t p temp).1.cells x } := rfl

theorem MallocOp_false (s : SysState) (t : Tid) (p : Pid) (temp : Bool)
    (size align : Nat) :
    MallocOp s t p temp size align false = (GetResourcePointerOp s t p temp).1 := rfl

theorem destroyPoolOp_cells (s : SysState) (p : Pid) :
    (destroyPoolOp s p).cells = (CleanAllOp s p).cells := rfl

theorem GetResourcePointerOp_first_touch (s : SysState) (t : Tid) (p : Pid)
    (temp : Bool) (ps : PoolSt) (hp : s.pools p = some ps)
    (hcell : s.cells (t, p, genOf temp ps) = none) :
    GetResourcePointerOp s t p temp =
      (bindCell
        { s with
            cells := fun x =>
              if x = (t, p, genOf temp ps) then some [] else s.cells x }
        p (t, p, genOf temp ps) (genOf temp ps),
        (t, p, genOf temp ps)) := by
  unfold GetResourcePointerOp
  simp only [hp, hcell]

theorem GetResourcePointerOp_hit (s : SysState) (t : Tid) (p : Pid)
    (temp : Bool) (ps : PoolSt) (a : Arena) (hp : s.pools p = some ps)
    (hcell : s.cells (t, p, genOf temp ps) = some a) :
    GetResourcePointerOp s t p temp = (s, (t, p, genOf temp ps)) := by
  unfold GetResourcePointerOp
  simp only [hp, hcell]

/-! Claim theorems. -/

/-- C1, counterexample: with `MAX_MEMORYPOOL_COUNT = 4`, create three pools
(ids 0, 1, 2) and destroy pool 1.  The smallest free id is 1, but the next
construction is assigned id 3 (`rbegin()->first + 1`), so the registry does
not allocate the smallest free id and the live set {0, 2, 3} is not the
lowest-numbered subset of its cardinality. -/
theorem c1_smallest_free_counterexample :
    c1State.poolIds = [0, 2] ∧
    smallestFreeId 4 c1State.poolIds = some 1 ∧
    (createPoolOp 4 c1State).2 = some 3 := by
  decide

/-- C1, amended: a successful pool construction is assigned an id that is
free and in [0, MAX_MEMORYPOOL_COUNT), but not in general the smallest
free one: with no live id it gets 0, with exactly one live id `k` it gets
the smallest free id (1 if k = 0, else 0), and with two or more live ids
it gets one more than the largest live id whenever that is still below
MAX_MEMORYPOOL_COUNT, even if smaller ids are free. -/
theorem c1_amended_id_allocation (N : Nat) (s : SysState) (h2 : 2 ≤ N)
    (hr : Reachable N s) (r : Pid) (hq : (createPoolOp N s).2 = some r) :
    (r ∉ s.poolIds ∧ r < N) ∧
    (s.poolIds = [] → r = 0) ∧
    (∀ k, s.poolIds = [k] → r = if k = 0 then 1 else 0) ∧
    (2 ≤ s.poolIds.length → s.poolIds.getLastD 0 + 1 < N →
      r = s.poolIds.getLastD 0 + 1) := by
  have hinv := reachable_inv N h2 hr
  have hq' : QueryFreeMemoryPoolId N s.poolIds = some r := by
    unfold createPoolOp at hq
    cases hqq : QueryFreeMemoryPoolId N s.poolIds with
    | none =>
      rw [hqq] at hq
      exact absurd hq (by simp)
    | some r0 =>
      rw [hqq] at hq
      injection hq with hq
      rw [hq]
  refine ⟨QueryFreeMemoryPoolId_fresh_lt N s.poolIds hinv.sorted hinv.bounded h2 r hq',
    ?_, ?_, ?_⟩
  · intro h0
    rw [h0] at hq'
    simp only [QueryFreeMemoryPoolId] at hq'
    injection hq' with hq'
    exact hq'.symm
  · intro k hk
    rw [hk] at hq'
    simp only [QueryFreeMemoryPoolId] at hq'
    injection hq' with hq'
    exact hq'.symm
  · intro hlen hmax
    rcases hkeys : s.poolIds with _ | ⟨k0, _ | ⟨k1, rest⟩⟩
    · simp [hkeys] at hlen
    · simp [hkeys] at hlen
    · rw [hkeys] at hq' hmax hlen
      have hsorted : List.Pairwise (· < ·) (k0 :: k1 :: rest) := by
        rw [← hkeys]
        exact hinv.sorted
      have hlenle : (k0 :: k1 :: rest).length ≤ (k0 :: k1 :: rest).getLastD 0 + 1 := by
        have hadd := add_length_le_getLastD (k1 :: rest) k0 hsorted
        simp only [List.length_cons] at hadd ⊢
        omega
      have hlenN : (k0 :: k1 :: rest).length ≠ N := by
        intro hEq
        rw [hEq] at hlenle
        exact absurd (Nat.lt_of_le_of_lt hlenle hmax) (Nat.lt_irrefl N)
      have hresN : (k0 :: k1 :: rest).getLastD 0 + 1 ≠ N := Nat.ne_of_lt hmax
      simp only [QueryFreeMemoryPoolId, if_neg hlenN, if_neg hresN] at hq'
      injection hq' with hq'
      exact hq'.symm

/-- Witness for the amended C1 at a concrete reachable state: with live
ids [0, 1] the next construction gets id 2 (= largest + 1, also fresh and
in range). -/
theorem c1_amended_id_allocation_witness :
    ((2 : Pid) ∉ exTwoPools.poolIds ∧ (2 : Pid) < 4) ∧
    (exTwoPools.poolIds = [] → (2 : Pid) = 0) ∧
    (∀ k, exTwoPools.poolIds = [k] → (2 : Pid) = if k = 0 then 1 else 0) ∧
    (2 ≤ exTwoPools.poolIds.length → exTwoPools.poolIds.getLastD 0 + 1 < 4 →
      (2 : Pid) = exTwoPools.poolIds.getLastD 0 + 1) :=
  c1_amended_id_allocation 4 exTwoPools (by decide) reachable_exTwoPools 2 (by decide)

/-- C2, counterexample: thread 0 allocates on pool 0 (its front handle is
bound and non-null), then `Clean()` runs.  Clean resets the arena to null
but does not remove the handle from the registry set, so after Clean —
a quiescent point — the cell is a member of the registry's (0, front) set
while its arena pointer is null: the claimed equivalence does not hold
and Clean does not restore it before returning. -/
theorem c2_registry_iff_counterexample :
    exClean.pools 0 = some ⟨true, false, [(0, 0, true)], []⟩ ∧
    exClean.cells (0, 0, true) = none := by
  decide

/-- C2, amended: at every reachable quiescent point, every cell holding a
non-null arena is registered in its pool's set for its generation (the
direction the code maintains); but Clean and CleanTemp leave the registry
sets untouched (they only null arenas), so the reverse direction fails
after them — registered handles may be null. -/
theorem c2_amended_nonnull_implies_registered (N : Nat) (s : SysState)
    (h2 : 2 ≤ N) (hr : Reachable N s) :
    (∀ c : CellId, s.cells c ≠ none →
      ∃ ps, s.pools c.2.1 = some ps ∧ c ∈ ps.set c.2.2) ∧
    (∀ p : Pid, (CleanAllOp s p).pools = s.pools ∧
      (CleanTempOp s p).pools = s.pools) :=
  ⟨(reachable_inv N h2 hr).bound,
    fun p => ⟨CleanAllOp_pools s p, CleanTempOp_pools s p⟩⟩

/-- Witness for the amended C2: at the reachable state `exAlloc`, the
non-null front cell of thread 0 on pool 0 is registered. -/
theorem c2_amended_nonnull_implies_registered_witness :
    ∃ ps, exAlloc.pools 0 = some ps ∧ (0, 0, true) ∈ ps.set true :=
  (c2_amended_nonnull_implies_registered 4 exAlloc (by decide) reachable_exAlloc).1
    (0, 0, true) (by decide)

/-- C3, code bug: with `MAX_MEMORYPOOL_COUNT = 4`, fill all four ids
(construction correctly fails on the full set), then destroy pool 0.
Id 0 is now free, yet the next construction still fails: the gap scan in
QueryFreeMemoryPoolId starts at the smallest live key and only looks at
gaps between consecutive live keys, so it never notices free ids below
the smallest live one and reaches the final throw.  This contradicts the
claim, the spec's scenario S6 (destroying any one pool allows the next
construction to succeed), and the code's own error message, which
reports that too many pools exist while only three of four ids are in
use. -/
theorem c3_exhaustion_code_bug :
    c3Full.poolIds = [0, 1, 2, 3] ∧
    (createPoolOp 4 c3Full).2 = none ∧
    c3Gap.poolIds = [1, 2, 3] ∧
    smallestFreeId 4 c3Gap.poolIds = some 0 ∧
    (createPoolOp 4 c3Gap).2 = none := by
  decide

/-- C9: Clean and CleanTemp are idempotent as state transformers — the
second run resets exactly the same registered cells, which are already
null (resetting a null `ControlledResource` is a no-op), and touches no
other component, so pool, slot-table and registry state coincide with a
single run. -/
theorem c9_clean_idempotent (s : SysState) (p : Pid) :
    CleanAllOp (CleanAllOp s p) p = CleanAllOp s p ∧
    CleanTempOp (CleanTempOp s p) p = CleanTempOp s p := by
  constructor
  · cases hp : s.pools p with
    | none =>
      have h1 : CleanAllOp s p = s := by
        unfold CleanAllOp
        rw [hp]
      rw [h1, h1]
    | some ps =>
      have h1 : CleanAllOp s p = resetCells s (ps.setF ++ ps.setB) := by
        unfold CleanAllOp
        rw [hp]
      have h2 : CleanAllOp (resetCells s (ps.setF ++ ps.setB)) p =
          resetCells (resetCells s (ps.setF ++ ps.setB)) (ps.setF ++ ps.setB) := by
        unfold CleanAllOp
        rw [resetCells_pools, hp]
      rw [h1, h2, resetCells_idem]
  · cases hp : s.pools p with
    | none =>
      have h1 : CleanTempOp s p = s := by
        unfold CleanTempOp
        rw [hp]
      rw [h1, h1]
    | some ps =>
      have h1 : CleanTempOp s p = resetCells s (ps.set (!ps.useFront)) := by
        unfold CleanTempOp
        rw [hp]
      have h2 : CleanTempOp (resetCells s (ps.set (!ps.useFront))) p =
          resetCells (resetCells s (ps.set (!ps.useFront))) (ps.set (!ps.useFront)) := by
        unfold CleanTempOp
        rw [resetCells_pools, hp]
      rw [h1, h2, resetCells_idem]

/-- C4: on a pool with a registered callback, GC() is the sequence
CleanTemp (releasing every arena bound to the inactive generation), flip
of the active bit, one callback invocation, CleanTemp again; consequently
the pool's active bit ends up negated (callback still registered) and
every arena that was bound to the pre-call active generation has been
released when GC() returns. -/
theorem c4_gc_protocol (s : SysState) (t : Tid) (p : Pid) (acts : List CbAction)
    (ps : PoolSt) (hp : s.pools p = some ps) (hgc : ps.hasGC = true) :
    GCOp s t p acts =
      CleanTempOp (runCallback (flipPool (CleanTempOp s p) p) t acts) p ∧
    (∃ ps2, (GCOp s t p acts).pools p = some ps2 ∧
      ps2.useFront = !ps.useFront ∧ ps2.hasGC = true) ∧
    (∀ c ∈ ps.set (!ps.useFront), (CleanTempOp s p).cells c = none) ∧
    (∀ c ∈ ps.set ps.useFront, (GCOp s t p acts).cells c = none) := by
  have hGCeq : GCOp s t p acts =
      CleanTempOp (runCallback (flipPool (CleanTempOp s p) p) t acts) p := by
    unfold GCOp
    simp [hp, hgc]
  have h1 : (CleanTempOp s p).pools p = some ps := by
    rw [CleanTempOp_pools]
    exact hp
  have h2 : (flipPool (CleanTempOp s p) p).pools p =
      some { ps with useFront := !ps.useFront } :=
    flipPool_pools_self _ p ps h1
  obtain ⟨ps3, h3, hu3, hg3, hm3⟩ :=
    runCallback_pools_mono t acts _ p { ps with useFront := !ps.useFront } h2
  refine ⟨hGCeq, ⟨ps3, ?_, ?_, ?_⟩, ?_, ?_⟩
  · rw [hGCeq, CleanTempOp_pools]
    exact h3
  · rw [hu3]
  · rw [hg3]
    exact hgc
  · intro c hc
    rw [CleanTempOp_cells s p ps hp]
    exact if_pos hc
  · intro c hc
    rw [hGCeq, CleanTempOp_cells _ p ps3 h3]
    have huf : (!ps3.useFront) = ps.useFront := by
      rw [hu3]
      exact Bool.not_not ps.useFront
    have hmem : c ∈ ps3.set (!ps3.useFront) := by
      rw [huf]
      apply hm3
      rw [set_useFront_update]
      exact hc
    exact if_pos hmem

/-- Witness for C4 at the reachable state `exGCReg` (pool 0 with a
callback registered and thread 0's front arena bound), with an empty
callback action list. -/
theorem c4_gc_protocol_witness :
    GCOp exGCReg 0 0 [] =
      CleanTempOp (runCallback (flipPool (CleanTempOp exGCReg 0) 0) 0 []) 0 ∧
    (∃ ps2, (GCOp exGCReg 0 0 []).pools 0 = some ps2 ∧
      ps2.useFront = !true ∧ ps2.hasGC = true) ∧
    (∀ c ∈ PoolSt.set ⟨true, true, [(0, 0, true)], []⟩ (!true),
      (CleanTempOp exGCReg 0).cells c = none) ∧
    (∀ c ∈ PoolSt.set ⟨true, true, [(0, 0, true)], []⟩ true,
      (GCOp exGCReg 0 0 []).cells c = none) :=
  c4_gc_protocol exGCReg 0 0 [] ⟨true, true, [(0, 0, true)], []⟩ (by decide) rfl

/-- C5, counterexample: a first-touch allocation that fails with
out-of-memory does not leave the slot table and registry in their
pre-call state.  Before the call, thread 0's front cell on pool 0 is null
and unregistered; `GetResourcePointer` creates the arena and binds the
cell before `allocate` throws, so after the failed call the cell holds a
fresh empty arena and is registered. -/
theorem c5_failed_alloc_counterexample :
    exPool.cells (0, 0, true) = none ∧
    exPool.pools 0 = some ⟨true, false, [], []⟩ ∧
    exFail.cells (0, 0, true) = some [] ∧
    exFail.pools 0 = some ⟨true, false, [(0, 0, true)], []⟩ := by
  decide

/-- C5, amended: a failed allocation leaves the pool's id, active bit and
callback, all other cells (hence all prior allocations), and the other
pools untouched; if the calling thread already had an arena for the
chosen (pool, generation) the failing call changes nothing at all, but a
first-touch failing call leaves exactly a fresh empty arena constructed
in the chosen cell and that cell newly bound in the registry. -/
theorem c5_amended_failed_alloc (s : SysState) (t : Tid) (p : Pid) (temp : Bool)
    (size align : Nat) (ps : PoolSt) (hp : s.pools p = some ps) :
    (s.cells (t, p, genOf temp ps) ≠ none →
      MallocOp s t p temp size align false = s) ∧
    (s.cells (t, p, genOf temp ps) = none →
      (MallocOp s t p temp size align false).poolIds = s.poolIds ∧
      (MallocOp s t p temp size align false).deadThreads = s.deadThreads ∧
      (MallocOp s t p temp size align false).cells (t, p, genOf temp ps) = some [] ∧
      (∀ c : CellId, c ≠ (t, p, genOf temp ps) →
        (MallocOp s t p temp size align false).cells c = s.cells c) ∧
      (MallocOp s t p temp size align false).pools p =
        some (bindPool ps (t, p, genOf temp ps) (genOf temp ps)) ∧
      (bindPool ps (t, p, genOf temp ps) (genOf temp ps)).useFront = ps.useFront ∧
      (bindPool ps (t, p, genOf temp ps) (genOf temp ps)).hasGC = ps.hasGC ∧
      (∀ q : Pid, q ≠ p →
        (MallocOp s t p temp size align false).pools q = s.pools q)) := by
  rw [MallocOp_false]
  constructor
  · intro hcell
    cases ha : s.cells (t, p, genOf temp ps) with
    | none => exact absurd ha hcell
    | some a => rw [GetResourcePointerOp_hit s t p temp ps a hp ha]
  · intro hcell
    rw [GetResourcePointerOp_first_touch s t p temp ps hp hcell]
    refine ⟨rfl, rfl, ?_, ?_, ?_, bindPool_useFront ps _ _, bindPool_hasGC ps _ _, ?_⟩
    · show (if (t, p, genOf temp ps) = (t, p, genOf temp ps) then some ([] : Arena)
        else s.cells (t, p, genOf temp ps)) = some []
      rw [if_pos rfl]
    · intro c hcne
      show (if c = (t, p, genOf temp ps) then some ([] : Arena) else s.cells c) = s.cells c
      rw [if_neg hcne]
    · show (if p = p then
          (s.pools p).map (fun ps' => bindPool ps' (t, p, genOf temp ps) (genOf temp ps))
        else s.pools p) =
        some (bindPool ps (t, p, genOf temp ps) (genOf temp ps))
      rw [if_pos rfl, hp]
      rfl
    · intro q hq
      show (if q = p then
          (s.pools q).map (fun ps' => bindPool ps' (t, p, genOf temp ps) (genOf temp ps))
        else s.pools q) = s.pools q
      rw [if_neg hq]

/-- Witness for the amended C5: the first-touch failing allocation of
`exFail`, checked through the theorem. -/
theorem c5_amended_failed_alloc_witness :
    (MallocOp exPool 0 0 false 8 8 false).poolIds = exPool.poolIds ∧
    (MallocOp exPool 0 0 false 8 8 false).deadThreads = exPool.deadThreads ∧
    (MallocOp exPool 0 0 false 8 8 false).cells (0, 0, true) = some [] ∧
    (∀ c : CellId, c ≠ (0, 0, true) →
      (MallocOp exPool 0 0 false 8 8 false).cells c = exPool.cells c) ∧
    (MallocOp exPool 0 0 false 8 8 false).pools 0 =
      some (bindPool ⟨true, false, [], []⟩ (0, 0, true) true) ∧
    (bindPool ⟨true, false, [], []⟩ (0, 0, true) true).useFront = true ∧
    (bindPool ⟨true, false, [], []⟩ (0, 0, true) true).hasGC = false ∧
    (∀ q : Pid, q ≠ 0 →
      (MallocOp exPool 0 0 false 8 8 false).pools q = exPool.pools q) :=
  (c5_amended_failed_alloc exPool 0 0 false 8 8 ⟨true, false, [], []⟩ (by decide)).2
    (by decide)

/-- C7: CleanTemp on a live pool releases exactly the arenas bound to the
inactive generation: every other cell (in particular every cell bound to
the active generation, with its data) is unchanged, and the pool table —
pool id liveness, active bit, callback and both registry sets — as well
as the id list and thread bookkeeping are untouched. -/
theorem c7_cleantemp_frame (N : Nat) (s : SysState) (h2 : 2 ≤ N)
    (hr : Reachable N s) (p : Pid) (ps : PoolSt) (hp : s.pools p = some ps) :
    (CleanTempOp s p).poolIds = s.poolIds ∧
    (CleanTempOp s p).pools = s.pools ∧
    (CleanTempOp s p).deadThreads = s.deadThreads ∧
    (∀ c ∈ ps.set (!ps.useFront), (CleanTempOp s p).cells c = none) ∧
    (∀ c : CellId, c ∉ ps.set (!ps.useFront) → (CleanTempOp s p).cells c = s.cells c) ∧
    (∀ c ∈ ps.set ps.useFront, (CleanTempOp s p).cells c = s.cells c) := by
  have hinv := reachable_inv N h2 hr
  refine ⟨CleanTempOp_poolIds s p, CleanTempOp_pools s p, CleanTempOp_deadThreads s p,
    ?_, ?_, ?_⟩
  · intro c hc
    rw [CleanTempOp_cells s p ps hp]
    exact if_pos hc
  · intro c hc
    rw [CleanTempOp_cells s p ps hp]
    exact if_neg hc
  · intro c hc
    have hgen : c.2.2 = ps.useFront := (hinv.wf p ps hp ps.useFront c hc).2.1
    rw [CleanTempOp_cells s p ps hp]
    refine if_neg ?_
    intro hcontra
    have hgen2 : c.2.2 = !ps.useFront := (hinv.wf p ps hp (!ps.useFront) c hcontra).2.1
    rw [hgen] at hgen2
    exact absurd hgen2 (by cases ps.useFront <;> decide)

/-- Witness for C7 at the reachable state `exTempAlloc` (both generations
of pool 0 bound by thread 0). -/
theorem c7_cleantemp_frame_witness :
    (CleanTempOp exTempAlloc 0).poolIds = exTempAlloc.poolIds ∧
    (CleanTempOp exTempAlloc 0).pools = exTempAlloc.pools ∧
    (CleanTempOp exTempAlloc 0).deadThreads = exTempAlloc.deadThreads ∧
    (∀ c ∈ PoolSt.set ⟨true, false, [(0, 0, true)], [(0, 0, false)]⟩ (!true),
      (CleanTempOp exTempAlloc 0).cells c = none) ∧
    (∀ c : CellId,
      c ∉ PoolSt.set ⟨true, false, [(0, 0, true)], [(0, 0, false)]⟩ (!true) →
      (CleanTempOp exTempAlloc 0).cells c = exTempAlloc.cells c) ∧
    (∀ c ∈ PoolSt.set ⟨true, false, [(0, 0, true)], [(0, 0, false)]⟩ true,
      (CleanTempOp exTempAlloc 0).cells c = exTempAlloc.cells c) :=
  c7_cleantemp_frame 4 exTempAlloc (by decide) reachable_exTempAlloc 0
    ⟨true, false, [(0, 0, true)], [(0, 0, false)]⟩ (by decide)

/-- C8: on a pool with no registered callback, GC() is literally
CleanAll, i.e. the same state transformer as Clean(): both generations'
registered arenas are released across all threads, the pool table
(including the active bit) is unchanged, and no flip happens. -/
theorem c8_gc_equals_clean_without_callback (s : SysState) (t : Tid) (p : Pid)
    (acts : List CbAction) (ps : PoolSt) (hp : s.pools p = some ps)
    (hgc : ps.hasGC = false) :
    GCOp s t p acts = CleanAllOp s p ∧
    (GCOp s t p acts).pools = s.pools ∧
    (GCOp s t p acts).poolIds = s.poolIds ∧
    (∀ c ∈ ps.setF ++ ps.setB, (GCOp s t p acts).cells c = none) := by
  have h1 : GCOp s t p acts = CleanAllOp s p := by
    unfold GCOp
    simp [hp, hgc]
  refine ⟨h1, ?_, ?_, ?_⟩
  · rw [h1]
    exact CleanAllOp_pools s p
  · rw [h1]
    exact CleanAllOp_poolIds s p
  · intro c hc
    rw [h1, CleanAllOp_cells s p ps hp]
    exact if_pos hc

/-- Witness for C8 at the reachable state `exAlloc` (no callback
registered, one bound front cell). -/
theorem c8_gc_equals_clean_witness :
    GCOp exAlloc 0 0 [] = CleanAllOp exAlloc 0 ∧
    (GCOp exAlloc 0 0 []).pools = exAlloc.pools ∧
    (GCOp exAlloc 0 0 []).poolIds = exAlloc.poolIds ∧
    (∀ c ∈ [((0 : Tid), (0 : Pid), true)] ++ ([] : List CellId),
      (GCOp exAlloc 0 0 []).cells c = none) :=
  c8_gc_equals_clean_without_callback exAlloc 0 0 []
    ⟨true, false, [(0, 0, true)], []⟩ (by decide) rfl

/-- Cells registered in any pool of a state whose registry sets contain no
cell of thread `t` are the only ones Clean/CleanTemp reset, so `t`'s cells
are untouched by them. -/
theorem CleanOps_cells_untouched (s : SysState) (p : Pid) (t : Tid)
    (hset : ∀ p' ps, s.pools p' = some ps → ∀ g : Bool, ∀ c ∈ ps.set g, c.1 ≠ t) :
    ∀ c : CellId, c.1 = t →
      (CleanAllOp s p).cells c = s.cells c ∧ (CleanTempOp s p).cells c = s.cells c := by
  intro c hct
  constructor
  · cases hp : s.pools p with
    | none =>
      unfold CleanAllOp
      rw [hp]
    | some ps =>
      rw [CleanAllOp_cells s p ps hp]
      refine if_neg ?_
      intro hmem
      rcases List.mem_append.mp hmem with hF | hB
      · exact hset p ps hp true c hF hct
      · exact hset p ps hp false c hB hct
  · cases hp : s.pools p with
    | none =>
      unfold CleanTempOp
      rw [hp]
    | some ps =>
      rw [CleanTempOp_cells s p ps hp]
      refine if_neg ?_
      intro hmem
      exact hset p ps hp (!ps.useFront) c hmem hct

/-- C6: once a thread's slot table has been torn down (with the pool still
live), none of its handle cells remains in any pool's registry set — the
teardown unbound them before destroying the arenas — and therefore any
later Clean, CleanTemp or GC (run by a live thread) iterates only over
other threads' handles and never touches, let alone dereferences, a cell
of the exited thread. -/
theorem c6_teardown_safety (N : Nat) (s : SysState) (h2 : 2 ≤ N)
    (hr : Reachable N s) (t : Tid) (ht : t ∈ s.deadThreads) :
    (∀ p ps, s.pools p = some ps → ∀ g : Bool, ∀ c ∈ ps.set g, c.1 ≠ t) ∧
    (∀ (p : Pid) (c : CellId), c.1 = t →
      (CleanAllOp s p).cells c = s.cells c ∧
      (CleanTempOp s p).cells c = s.cells c) ∧
    (∀ (p : Pid) (t2 : Tid) (acts : List CbAction), t2 ∉ s.deadThreads →
      ∀ c : CellId, c.1 = t → (GCOp s t2 p acts).cells c = s.cells c) := by
  have hinv := reachable_inv N h2 hr
  have hset : ∀ p ps, s.pools p = some ps → ∀ g : Bool, ∀ c ∈ ps.set g, c.1 ≠ t := by
    intro p ps hp g c hc hct
    exact (hinv.wf p ps hp g c hc).2.2 (hct ▸ ht)
  refine ⟨hset, fun p c hct => CleanOps_cells_untouched s p t hset c hct, ?_⟩
  intro p t2 acts ht2 c hct
  cases hp : s.pools p with
  | none =>
    unfold GCOp
    rw [hp]
  | some ps =>
    by_cases hgc : ps.hasGC = true
    · have hGCeq : GCOp s t2 p acts =
          CleanTempOp (runCallback (flipPool (CleanTempOp s p) p) t2 acts) p := by
        unfold GCOp
        simp [hp, hgc]
      rw [hGCeq]
      have hct2 : c.1 ≠ t2 := by
        rw [hct]
        intro hEq
        exact ht2 (hEq ▸ ht)
      have hdeadflip : (flipPool (CleanTempOp s p) p).deadThreads = s.deadThreads :=
        CleanTempOp_deadThreads s p
      have hinv3 : Inv N (runCallback (flipPool (CleanTempOp s p) p) t2 acts) :=
        inv_runCallback N t2 acts _ (by rw [hdeadflip]; exact ht2)
          (inv_flipPool N _ p (inv_CleanTempOp N s p hinv))
      have hdead3 :
          (runCallback (flipPool (CleanTempOp s p) p) t2 acts).deadThreads =
            s.deadThreads := by
        rw [runCallback_deadThreads]
        exact hdeadflip
      have hset3 : ∀ p' ps',
          (runCallback (flipPool (CleanTempOp s p) p) t2 acts).pools p' = some ps' →
          ∀ g : Bool, ∀ c' ∈ ps'.set g, c'.1 ≠ t := by
        intro p' ps' hp' g c' hc' hct'
        have hnd := (hinv3.wf p' ps' hp' g c' hc').2.2
        rw [hdead3] at hnd
        exact hnd (hct' ▸ ht)
      have hfinal :=
        (CleanOps_cells_untouched _ p t hset3 c hct).2
      rw [hfinal, runCallback_cells_other t2 acts _ c hct2]
      exact (CleanOps_cells_untouched s p t hset c hct).2
    · rw [Bool.not_eq_true] at hgc
      have hGCeq : GCOp s t2 p acts = CleanAllOp s p := by
        unfold GCOp
        simp [hp, hgc]
      rw [hGCeq]
      exact (CleanOps_cells_untouched s p t hset c hct).1

/-- Witness for C6 at the reachable state `exExit` (thread 0 allocated on
pool 0 and exited while the pool stayed live). -/
theorem c6_teardown_safety_witness :
    (∀ p ps, exExit.pools p = some ps → ∀ g : Bool, ∀ c ∈ ps.set g, c.1 ≠ 0) ∧
    (∀ (p : Pid) (c : CellId), c.1 = 0 →
      (CleanAllOp exExit p).cells c = exExit.cells c ∧
      (CleanTempOp exExit p).cells c = exExit.cells c) ∧
    (∀ (p : Pid) (t2 : Tid) (acts : List CbAction), t2 ∉ exExit.deadThreads →
      ∀ c : CellId, c.1 = 0 → (GCOp exExit t2 p acts).cells c = exExit.cells c) :=
  c6_teardown_safety 4 exExit (by decide) reachable_exExit 0 (by decide)

/-- First-touch successful allocation after the chosen cell is null:
a fresh arena is constructed in the cell, receives the allocation, and
the cell is bound into the registry set of its generation. -/
theorem MallocOp_first_touch_ok (s : SysState) (t : Tid) (p : Pid) (temp : Bool)
    (size align : Nat) (ps : PoolSt) (hp : s.pools p = some ps)
    (hcell : s.cells (t, p, genOf temp ps) = none) :
    (MallocOp s t p temp size align true).cells (t, p, genOf temp ps) =
      some [(size, align)] ∧
    (MallocOp s t p temp size align true).pools p =
      some (bindPool ps (t, p, genOf temp ps) (genOf temp ps)) := by
  have hget := GetResourcePointerOp_first_touch s t p temp ps hp hcell
  rw [MallocOp_true, hget]
  constructor
  · show (if ((t, p, genOf temp ps) : CellId) = (t, p, genOf temp ps) then
        ((if ((t, p, genOf temp ps) : CellId) = (t, p, genOf temp ps) then some ([] : Arena)
          else s.cells (t, p, genOf temp ps)).map (fun a => a ++ [(size, align)]))
      else _) = some [(size, align)]
    rw [if_pos rfl, if_pos rfl]
    rfl
  · show (if p = p then
        (s.pools p).map (fun ps' => bindPool ps' (t, p, genOf temp ps) (genOf temp ps))
      else s.pools p) = some (bindPool ps (t, p, genOf temp ps) (genOf temp ps))
    rw [if_pos rfl, hp]
    rfl

/-- C10: after Clean on a live pool, every cell of that pool in every
thread's slot table is null — the registered ones are reset outright, and
by the bind invariant no unregistered cell of the pool was non-null; the
pool destructor leaves cells in exactly the same state, since it runs the
same CleanAll before retiring the id.  The next (successful) allocation
on the pool from any thread constructs a fresh arena in the same cell,
records the allocation in it, and (re)binds the cell into the registry
set of its generation. -/
theorem c10_clean_nulls_and_rebind (N : Nat) (s : SysState) (h2 : 2 ≤ N)
    (hr : Reachable N s) (p : Pid) (ps : PoolSt) (hp : s.pools p = some ps) :
    (∀ (t : Tid) (g : Bool), (CleanAllOp s p).cells (t, p, g) = none) ∧
    (∀ (t : Tid) (g : Bool), (destroyPoolOp s p).cells (t, p, g) = none) ∧
    (∀ (t : Tid) (temp : Bool) (size align : Nat),
      (MallocOp (CleanAllOp s p) t p temp size align true).cells
          (t, p, genOf temp ps) = some [(size, align)] ∧
      (MallocOp (CleanAllOp s p) t p temp size align true).pools p =
        some (bindPool ps (t, p, genOf temp ps) (genOf temp ps)) ∧
      (t, p, genOf temp ps) ∈
        (bindPool ps (t, p, genOf temp ps) (genOf temp ps)).set (genOf temp ps)) := by
  have hinv := reachable_inv N h2 hr
  have hnull : ∀ (t : Tid) (g : Bool), (CleanAllOp s p).cells (t, p, g) = none := by
    intro t g
    rw [CleanAllOp_cells s p ps hp]
    by_cases hm : ((t, p, g) : CellId) ∈ ps.setF ++ ps.setB
    · exact if_pos hm
    · cases ha : s.cells (t, p, g) with
      | none => exact (if_neg hm).trans ha
      | some a =>
        exfalso
        obtain ⟨ps0, hps0, hmem0⟩ := hinv.bound (t, p, g) (by rw [ha]; simp)
        have heq : some ps = some ps0 := hp.symm.trans hps0
        injection heq with heq
        subst heq
        exact hm (mem_set_append ps g (t, p, g) hmem0)
  refine ⟨hnull, ?_, ?_⟩
  · intro t g
    rw [destroyPoolOp_cells]
    exact hnull t g
  · intro t temp size align
    have hp1 : (CleanAllOp s p).pools p = some ps := by
      rw [CleanAllOp_pools]
      exact hp
    obtain ⟨h1, h2x⟩ :=
      MallocOp_first_touch_ok (CleanAllOp s p) t p temp size align ps hp1
        (hnull t (genOf temp ps))
    refine ⟨h1, h2x, ?_⟩
    rw [set_bindPool, if_pos rfl]
    exact mem_insertCell.mpr (Or.inl rfl)

/-- Witness for C10 at the reachable state `exAlloc`. -/
theorem c10_clean_nulls_and_rebind_witness :
    (∀ (t : Tid) (g : Bool), (CleanAllOp exAlloc 0).cells (t, 0, g) = none) ∧
    (∀ (t : Tid) (g : Bool), (destroyPoolOp exAlloc 0).cells (t, 0, g) = none) ∧
    (∀ (t : Tid) (temp : Bool) (size align : Nat),
      (MallocOp (CleanAllOp exAlloc 0) t 0 temp size align true).cells
          (t, 0, genOf temp ⟨true, false, [(0, 0, true)], []⟩) = some [(size, align)] ∧
      (MallocOp (CleanAllOp exAlloc 0) t 0 temp size align true).pools 0 =
        some (bindPool ⟨true, false, [(0, 0, true)], []⟩
          (t, 0, genOf temp ⟨true, false, [(0, 0, true)], []⟩)
          (genOf temp ⟨true, false, [(0, 0, true)], []⟩)) ∧
      (t, 0, genOf temp ⟨true, false, [(0, 0, true)], []⟩) ∈
        (bindPool ⟨true, false, [(0, 0, true)], []⟩
          (t, 0, genOf temp ⟨true, false, [(0, 0, true)], []⟩)
          (genOf temp ⟨true, false, [(0, 0, true)], []⟩)).set
          (genOf temp ⟨true, false, [(0, 0, true)], []⟩)) :=
  c10_clean_nulls_and_rebind 4 exAlloc (by decide) reachable_exAlloc 0
    ⟨true, false, [(0, 0, true)], []⟩ (by decide)

end MemPool
